import Mathlib

/-!
Shallow embedding of the cache simulator core (cachelib): the set-associative
cache engine, the replacement policies, the layered simulator and the trace
parser.  Machine integers (u64, u32, u8) are modelled as `Nat` with explicit
wrap-around (`% 2 ^ w`) at the operations where the Rust release build wraps;
operations that can panic (out-of-bounds indexing, division by zero, the
buffer-length assertion) are modelled as `Option`-valued functions returning
`none` at the panicking inputs.  Loops are translated as counted or fuelled
recursions; the fuel is chosen large enough to cover every terminating run of
the corresponding Rust loop, and `none` on fuel exhaustion models divergence.
-/

/-- Bitwise complement of a u64 value. -/
def u64not (x : Nat) : Nat := 2 ^ 64 - 1 - x % 2 ^ 64

/-- u64 shift-left with the shift-amount masking of a Rust release build. -/
def u64shl (x n : Nat) : Nat := (x <<< (n % 64)) % 2 ^ 64

/-- Wrapping u64 subtraction. -/
def u64wsub (x y : Nat) : Nat := (x % 2 ^ 64 + (2 ^ 64 - y % 2 ^ 64)) % 2 ^ 64

/-- Wrapping u32 subtraction. -/
def u32wsub (x y : Nat) : Nat := (x % 2 ^ 32 + (2 ^ 32 - y % 2 ^ 32)) % 2 ^ 32

/-- Wrapping u8 subtraction. -/
def u8wsub (x y : Nat) : Nat := (x % 256 + (256 - y % 256)) % 256

/-- Helper for `u64trailing_zeros`, counting factor-2 divisions with fuel. -/
def trailingZerosAux : Nat → Nat → Nat
  | 0, _ => 0
  | fuel + 1, x => if x % 2 = 1 then 0 else trailingZerosAux fuel (x / 2) + 1

/-- `u64::trailing_zeros` (returns 64 on input 0). -/
def u64trailing_zeros (x : Nat) : Nat := trailingZerosAux 64 (x % 2 ^ 64)

/-- The state of a replacement policy: the four variants the library provides
(`NoPolicy`, `RoundRobin`, `LeastRecentlyUsed`, `LeastFrequentlyUsed`),
carrying exactly the fields of the corresponding Rust structs. -/
inductive ReplacementPolicy where
  | noPolicy : ReplacementPolicy
  | roundRobin (set_indices : List Nat) : ReplacementPolicy
  | leastRecentlyUsed (last_used_times : List Nat) (time : Nat) : ReplacementPolicy
  | leastFrequentlyUsed (usages : List Nat) : ReplacementPolicy
deriving DecidableEq

/-- The argmin scan loop shared by the LRU and LFU `get_new_line`
implementations: scans `cnt` cells starting at `index`, keeping the current
minimum value and its index (initialised to the `u64::MAX` / `usize::MAX`
sentinels by the caller).  `none` models an out-of-bounds read. -/
def scanMin (l : List Nat) : Nat → Nat → Nat → Nat → Option (Nat × Nat)
  | 0, _, min_value, min_index => some (min_value, min_index)
  | cnt + 1, index, min_value, min_index =>
    match l[index]? with
    | none => none
    | some v =>
      if v < min_value then scanMin l cnt (index + 1) v index
      else scanMin l cnt (index + 1) min_value min_index

/-- `ReplacementPolicy::update_on_read` for each variant. -/
def ReplacementPolicy.update_on_read : ReplacementPolicy → Nat → Option ReplacementPolicy
  | .noPolicy, _ => some .noPolicy
  | .roundRobin set_indices, _ => some (.roundRobin set_indices)
  | .leastRecentlyUsed last_used_times time, cache_index =>
    if cache_index < last_used_times.length then
      some (.leastRecentlyUsed (last_used_times.set cache_index time) ((time + 1) % 2 ^ 64))
    else none
  | .leastFrequentlyUsed usages, cache_index =>
    if cache_index < usages.length then
      some (.leastFrequentlyUsed
        (usages.set cache_index ((usages.getD cache_index 0 + 1) % 2 ^ 64)))
    else none

/-- `ReplacementPolicy::get_new_line` for each variant, returning the chosen
absolute line index together with the updated policy state. -/
def ReplacementPolicy.get_new_line :
    ReplacementPolicy → Nat → Nat → Nat → Option (Nat × ReplacementPolicy)
  | .noPolicy, set_lower_bound_index, _, _ => some (set_lower_bound_index, .noPolicy)
  | .roundRobin set_indices, set_lower_bound_index, set, cache_lines_per_set =>
    match set_indices[set]? with
    | none => none
    | some v =>
      if cache_lines_per_set = 0 then none
      else
        some ((set_lower_bound_index + v) % 2 ^ 64,
          .roundRobin (set_indices.set set ((v + 1) % cache_lines_per_set)))
  | .leastRecentlyUsed last_used_times time, set_lower_bound_index, _, cache_lines_per_set =>
    match scanMin last_used_times cache_lines_per_set set_lower_bound_index
        (2 ^ 64 - 1) (2 ^ 64 - 1) with
    | none => none
    | some (_, min_index) =>
      if min_index < last_used_times.length then
        some (min_index,
          .leastRecentlyUsed (last_used_times.set min_index time) ((time + 1) % 2 ^ 64))
      else none
  | .leastFrequentlyUsed usages, set_lower_bound_index, _, cache_lines_per_set =>
    match scanMin usages cache_lines_per_set set_lower_bound_index
        (2 ^ 64 - 1) (2 ^ 64 - 1) with
    | none => none
    | some (_, min_index) =>
      if min_index < usages.length then
        some (min_index, .leastFrequentlyUsed (usages.set min_index 1))
      else none

/-- One cache level (the Rust `Cache<R>` struct; the replacement-policy type
parameter is embedded as the `ReplacementPolicy` state). -/
structure Cache where
  set_selection_bit_mask : Nat
  tag_selection_bit_mask : Nat
  cache_alignment_bit_mask : Nat
  line_size : Nat
  cache : List Nat
  replacement_policy : ReplacementPolicy
  cache_alignment_bits : Nat
  set_size : Nat
deriving DecidableEq

/-- `Cache::new`. -/
def Cache.new (size line_size num_sets : Nat) (policy : ReplacementPolicy) : Cache :=
  let cache_alignment_bits := u64trailing_zeros line_size
  let set_selection_bits := u64trailing_zeros num_sets
  let cache_lines := size / line_size
  { set_size := cache_lines / num_sets
    set_selection_bit_mask := u64shl (u64wsub num_sets 1) cache_alignment_bits
    tag_selection_bit_mask :=
      u64shl
        (u64wsub (u64shl 1 (u32wsub (u32wsub 64 set_selection_bits) cache_alignment_bits)) 1)
        ((cache_alignment_bits + set_selection_bits) % 256)
    cache_alignment_bit_mask := u64not (u64wsub (u64shl 1 cache_alignment_bits) 1)
    line_size := line_size
    cache_alignment_bits := cache_alignment_bits
    cache := List.replicate cache_lines 0
    replacement_policy := policy }

/-- `Cache::address_to_set_and_tag`. -/
def Cache.address_to_set_and_tag (c : Cache) (input : Nat) : Nat × Nat :=
  ((input &&& c.set_selection_bit_mask) >>> c.cache_alignment_bits,
    input &&& c.tag_selection_bit_mask)

/-- The tag-scan loop of `read_and_update_line`: scans `cnt` cells starting at
index `x`, returning `some (some i)` on the first cell equal to `tag`,
`some none` if the whole range mismatches, and `none` on out-of-bounds. -/
def scanSet (cache : List Nat) (tag : Nat) : Nat → Nat → Option (Option Nat)
  | _, 0 => some none
  | x, cnt + 1 =>
    match cache[x]? with
    | none => none
    | some v => if v = tag then some (some x) else scanSet cache tag (x + 1) cnt

/-- `Cache::read_and_update_line`: returns the hit flag and the updated cache. -/
def Cache.read_and_update_line (c : Cache) (input : Nat) : Option (Bool × Cache) :=
  let st := c.address_to_set_and_tag input
  let set := st.1
  let tag := st.2
  let set_inclusive_lower_bound := set * c.set_size
  match scanSet c.cache tag set_inclusive_lower_bound c.set_size with
  | none => none
  | some (some x) =>
    (c.replacement_policy.update_on_read x).map
      fun p => (true, { c with replacement_policy := p })
  | some none =>
    match c.replacement_policy.get_new_line set_inclusive_lower_bound set c.set_size with
    | none => none
    | some (line, p) =>
      if line < c.cache.length then
        some (false, { c with cache := c.cache.set line tag, replacement_policy := p })
      else none

/-- `Cache::get_uninitialised_line_count`. -/
def Cache.get_uninitialised_line_count (c : Cache) : Nat :=
  (c.cache.filter fun a => a = 0).length

/-- The `kind` field of a cache configuration. -/
inductive CacheKindConfig where
  | direct : CacheKindConfig
  | full : CacheKindConfig
  | twoWay : CacheKindConfig
  | fourWay : CacheKindConfig
  | eightWay : CacheKindConfig
deriving DecidableEq

/-- The `replacement_policy` field of a cache configuration. -/
inductive ReplacementPolicyConfig where
  | roundRobin : ReplacementPolicyConfig
  | leastRecentlyUsed : ReplacementPolicyConfig
  | leastFrequentlyUsed : ReplacementPolicyConfig
deriving DecidableEq

/-- One level of the JSON configuration. -/
structure CacheConfig where
  name : String
  size : Nat
  line_size : Nat
  kind : CacheKindConfig
  replacement_policy : ReplacementPolicyConfig
deriving DecidableEq

/-- The layered configuration. -/
structure LayeredCacheConfig where
  caches : List CacheConfig
deriving DecidableEq

/-- `config.size / config.line_size`, as computed in `config_to_cache`. -/
def CacheConfig.num_lines (c : CacheConfig) : Nat := c.size / c.line_size

/-- The number of sets derived from the configured kind in `config_to_cache`. -/
def CacheConfig.num_sets (c : CacheConfig) : Nat :=
  match c.kind with
  | .direct => c.num_lines
  | .full => 1
  | .twoWay => c.num_lines / 2
  | .fourWay => c.num_lines / 4
  | .eightWay => c.num_lines / 8

/-- Per-level counters of the simulation result. -/
structure CacheResult where
  name : String
  hits : Nat
  misses : Nat
deriving DecidableEq

/-- The aggregate simulation result. -/
structure LayeredCacheResult where
  main_memory_accesses : Nat
  caches : List CacheResult
deriving DecidableEq

/-- The simulator state (the wall-clock timing field is not modelled). -/
structure Simulator where
  caches : List Cache
  result : LayeredCacheResult
deriving DecidableEq

/-- `Simulator::config_to_cache`. -/
def Simulator.config_to_cache (config : CacheConfig) : Cache :=
  if config.num_sets = config.num_lines then
    Cache.new config.size config.line_size config.num_sets .noPolicy
  else
    match config.replacement_policy with
    | .roundRobin =>
      Cache.new config.size config.line_size config.num_sets
        (.roundRobin (List.replicate config.num_sets 0))
    | .leastRecentlyUsed =>
      Cache.new config.size config.line_size config.num_sets
        (.leastRecentlyUsed (List.replicate config.num_lines 0) 0)
    | .leastFrequentlyUsed =>
      Cache.new config.size config.line_size config.num_sets
        (.leastFrequentlyUsed (List.replicate config.num_lines 0))

/-- `Simulator::new`. -/
def Simulator.new (config : LayeredCacheConfig) : Simulator :=
  { caches := config.caches.map Simulator.config_to_cache
    result :=
      { main_memory_accesses := 0
        caches := config.caches.map fun cache =>
          { hits := 0, misses := 0, name := cache.name } } }

/-- The per-sub-access walk down the levels (the zipped for-loop with break in
`Simulator::read`): the first level whose `read_and_update_line` returns true
gets its hit counter incremented and stops the walk; every level walked before
that gets its miss counter incremented. -/
def walkLevels (address : Nat) : List Cache → List CacheResult →
    Option (List Cache × List CacheResult)
  | [], rs => some ([], rs)
  | c :: cs, [] => some (c :: cs, [])
  | c :: cs, r :: rs =>
    match c.read_and_update_line address with
    | none => none
    | some (true, c2) => some (c2 :: cs, { r with hits := r.hits + 1 } :: rs)
    | some (false, c2) =>
      match walkLevels address cs rs with
      | none => none
      | some (cs2, rs2) => some (c2 :: cs2, { r with misses := r.misses + 1 } :: rs2)

/-- The sub-access while-loop of `Simulator::read`: while the current aligned
address is below `upper`, walk the levels and advance by the stride. -/
def readLoop (lowest_line_size upper : Nat) : Nat → Nat → Simulator → Option Simulator
  | 0, _, _ => none
  | fuel + 1, current_aligned_address, sim =>
    if current_aligned_address < upper then
      match walkLevels current_aligned_address sim.caches sim.result.caches with
      | none => none
      | some (cs, rs) =>
        readLoop lowest_line_size upper fuel
          ((current_aligned_address + lowest_line_size) % 2 ^ 64)
          { sim with caches := cs, result := { sim.result with caches := rs } }
    else some sim

/-- `Simulator::read`. -/
def Simulator.read (sim : Simulator) (address size : Nat) : Option Simulator :=
  match sim.caches with
  | [] => none
  | first_cache :: _ =>
    let lowest_line_size := first_cache.line_size
    let alignment_diff := address &&& u64not first_cache.cache_alignment_bit_mask
    let current_aligned_address := address - alignment_diff
    let upper := (address + size) % 2 ^ 64
    readLoop lowest_line_size upper (upper + 2) current_aligned_address sim

/-- `map_hex_char` from `build.rs`. -/
def map_hex_char (input : Nat) : Nat :=
  if 48 ≤ input ∧ input ≤ 57 then input - 48
  else if 65 ≤ input ∧ input ≤ 70 then input - 65 + 10
  else if 97 ≤ input ∧ input ≤ 102 then input - 97 + 10
  else 0

/-- The generated `HEX_LOOKUP` table, as the function of the two index bytes
that `build.rs` tabulates. -/
def hexLookup (left right : Nat) : Nat :=
  (map_hex_char left <<< 4) % 256 ||| map_hex_char right

/-- The pairwise lookup loop of `parse_address`. -/
def parseAddressLoop (res : Nat) : List Nat → Nat
  | a :: b :: rest => parseAddressLoop ((res <<< 8) % 2 ^ 64 ||| hexLookup a b) rest
  | _ => res

/-- `parse_address` over the 16 address bytes of a record. -/
def parse_address (buf : List Nat) : Nat := parseAddressLoop 0 buf

/-- `parse_size` over the 3 size bytes of a record. -/
def parse_size : List Nat → Nat
  | [b0, b1, b2] => u8wsub b2 48 + 10 * u8wsub b1 48 + 100 * u8wsub b0 48
  | _ => 0

/-- The record loop of `Simulator::simulate` (40 bytes per record). -/
def simLoop (bytes : List Nat) : Nat → Nat → Simulator → Option Simulator
  | 0, i, sim => if i < bytes.length then none else some sim
  | fuel + 1, i, sim =>
    if i < bytes.length then
      if i + 40 ≤ bytes.length then
        let buffer := (bytes.drop i).take 40
        let address := parse_address ((buffer.drop 17).take 16)
        let size := parse_size ((buffer.drop 36).take 3)
        match sim.read address size with
        | none => none
        | some sim2 => simLoop bytes fuel (i + 40) sim2
      else none
    else some sim

/-- `Simulator::simulate`: asserts the buffer length is a multiple of 40, runs
the record loop, then assigns `main_memory_accesses` from the last level's
miss counter. -/
def Simulator.simulate (sim : Simulator) (bytes : List Nat) : Option Simulator :=
  if bytes.length % 40 = 0 then
    match simLoop bytes bytes.length 0 sim with
    | none => none
    | some sim2 =>
      match sim2.result.caches.getLast? with
      | none => none
      | some last =>
        some { sim2 with result := { sim2.result with main_memory_accesses := last.misses } }
  else none

/-- The construction path of `main.rs`: an empty cache list is rejected before
the simulator is built. -/
def mainBuildSimulator (config : LayeredCacheConfig) : Except String Simulator :=
  if config.caches.isEmpty then
    Except.error ("The provided file is valid, but the list of caches was empty")
  else Except.ok (Simulator.new config)

/-- Spec-side value of one ASCII hex digit. -/
def hexDigitVal (c : Nat) : Nat :=
  if 48 ≤ c ∧ c ≤ 57 then c - 48
  else if 65 ≤ c ∧ c ≤ 70 then c - 65 + 10
  else if 97 ≤ c ∧ c ≤ 102 then c - 97 + 10
  else 0

/-- Spec-side recogniser of ASCII hex digits `[0-9A-Fa-f]`. -/
def isHexDigitByte (c : Nat) : Bool :=
  decide ((48 ≤ c ∧ c ≤ 57) ∨ (65 ≤ c ∧ c ≤ 70) ∨ (97 ≤ c ∧ c ≤ 102))

/-- Spec-side standard big-endian base-16 decode of a byte string. -/
def hexDecode (l : List Nat) : Nat := l.foldl (fun acc c => 16 * acc + hexDigitVal c) 0

/-- Spec-side standard decimal decode of a byte string of ASCII digits. -/
def decimalDecode (l : List Nat) : Nat := l.foldl (fun acc c => 10 * acc + (c - 48)) 0

/-- Spec-side list of the aligned sub-access addresses generated for one
record: the same iteration sequence as the while-loop of `Simulator::read`,
independent of the cache state. -/
def subLoop (stride upper : Nat) : Nat → Nat → Option (List Nat)
  | 0, _ => none
  | fuel + 1, current =>
    if current < upper then
      match subLoop stride upper fuel ((current + stride) % 2 ^ 64) with
      | none => none
      | some rest => some (current :: rest)
    else some []

/-- The sub-access addresses for an access at `address` of `size` bytes, with
the outermost level's alignment mask and line size. -/
def subAccessList (alignment_bit_mask line_size address size : Nat) : Option (List Nat) :=
  let upper := (address + size) % 2 ^ 64
  subLoop line_size upper (upper + 2) (address - (address &&& u64not alignment_bit_mask))

/-- Dispatching a list of sub-access addresses in order. -/
def foldWalk : List Nat → Simulator → Option Simulator
  | [], sim => some sim
  | a :: rest, sim =>
    match walkLevels a sim.caches sim.result.caches with
    | none => none
    | some (cs, rs) =>
      foldWalk rest { sim with caches := cs, result := { sim.result with caches := rs } }

/-- Total number of accesses seen by a level. -/
def cacheTotal (r : CacheResult) : Nat := r.hits + r.misses

/-- Default per-level counter record. -/
def emptyResult : CacheResult := { name := "", hits := 0, misses := 0 }

/-- Default simulator, used only as a `getD` fallback in witnesses. -/
def defaultSimulator : Simulator :=
  { caches := [], result := { main_memory_accesses := 0, caches := [] } }

/-! ## Helper lemmas -/

theorem hexDigitVal_lt (c : Nat) : hexDigitVal c < 16 := by
  unfold hexDigitVal
  split
  · omega
  · split
    · omega
    · split
      · omega
      · omega

theorem trailingZerosAux_two_pow :
    ∀ (fuel a : Nat), a < fuel → trailingZerosAux fuel (2 ^ a) = a
  | 0, _, h => absurd h (by omega)
  | fuel + 1, 0, _ => by simp [trailingZerosAux]
  | fuel + 1, a + 1, h => by
    have h2 : (2 : Nat) ^ (a + 1) % 2 = 0 := by
      rw [Nat.pow_succ]
      exact Nat.mul_mod_left _ 2
    have h3 : (2 : Nat) ^ (a + 1) / 2 = 2 ^ a := by
      rw [Nat.pow_succ]
      exact Nat.mul_div_cancel _ (by norm_num)
    rw [trailingZerosAux, if_neg (by omega), h3,
      trailingZerosAux_two_pow fuel a (by omega)]

theorem u64trailing_zeros_two_pow (a : Nat) (h : a < 64) : u64trailing_zeros (2 ^ a) = a := by
  unfold u64trailing_zeros
  rw [Nat.mod_eq_of_lt (Nat.pow_lt_pow_right (by norm_num) h)]
  exact trailingZerosAux_two_pow 64 a h

theorem u64wsub_eq (x y : Nat) (hx : x < 2 ^ 64) (hy : y ≤ x) : u64wsub x y = x - y := by
  have hpow : (2 : Nat) ^ 64 = 18446744073709551616 := by norm_num
  unfold u64wsub
  omega

theorem u64shl_eq (x n : Nat) (hn : n < 64) (hx : x * 2 ^ n < 2 ^ 64) :
    u64shl x n = x * 2 ^ n := by
  unfold u64shl
  rw [Nat.mod_eq_of_lt hn, Nat.shiftLeft_eq, Nat.mod_eq_of_lt hx]

theorem u64not_eq (x : Nat) (hx : x < 2 ^ 64) : u64not x = 2 ^ 64 - 1 - x := by
  unfold u64not
  rw [Nat.mod_eq_of_lt hx]

theorem u32wsub_eq (x y : Nat) (hx : x < 2 ^ 32) (hy : y ≤ x) : u32wsub x y = x - y := by
  have hpow : (2 : Nat) ^ 32 = 4294967296 := by norm_num
  unfold u32wsub
  omega

theorem two_pow_le_two_pow_64 {a : Nat} (h : a ≤ 64) : (2 : Nat) ^ a ≤ 2 ^ 64 :=
  Nat.pow_le_pow_right (by norm_num) h

theorem two_pow_lt_two_pow_64 {a : Nat} (h : a < 64) : (2 : Nat) ^ a < 2 ^ 64 :=
  Nat.pow_lt_pow_right (by norm_num) h

/-- Field values of a constructed cache level, for power-of-two line size and
set count with `0 < a + s` and `a + s < 64`. -/
theorem Cache.new_fields (size line_size num_sets a s : Nat) (policy : ReplacementPolicy)
    (hl : line_size = 2 ^ a) (hn : num_sets = 2 ^ s) (ha : a < 64) (hs : s < 64)
    (has : a + s < 64) (hpos : 0 < a + s) :
    (Cache.new size line_size num_sets policy).cache_alignment_bits = a ∧
    (Cache.new size line_size num_sets policy).set_selection_bit_mask = (2 ^ s - 1) * 2 ^ a ∧
    (Cache.new size line_size num_sets policy).cache_alignment_bit_mask = 2 ^ 64 - 2 ^ a ∧
    (Cache.new size line_size num_sets policy).tag_selection_bit_mask =
      (2 ^ (64 - s - a) - 1) * 2 ^ (a + s) := by
  have h1 : (2 : Nat) ^ a ≥ 1 := Nat.one_le_two_pow
  have h2 : (2 : Nat) ^ s ≥ 1 := Nat.one_le_two_pow
  have hsa : (2 : Nat) ^ (s + a) ≤ 2 ^ 64 := two_pow_le_two_pow_64 (by omega)
  have hmul : ((2 : Nat) ^ s - 1) * 2 ^ a < 2 ^ 64 := by
    calc ((2 : Nat) ^ s - 1) * 2 ^ a < 2 ^ s * 2 ^ a :=
          (Nat.mul_lt_mul_right (Nat.pos_pow_of_pos a (by norm_num))).mpr (by omega)
      _ = 2 ^ (s + a) := by rw [Nat.pow_add]
      _ ≤ 2 ^ 64 := hsa
  have htz1 : u64trailing_zeros line_size = a := hl ▸ u64trailing_zeros_two_pow a ha
  have htz2 : u64trailing_zeros num_sets = s := hn ▸ u64trailing_zeros_two_pow s hs
  have hws1 : u64wsub num_sets 1 = 2 ^ s - 1 := by
    rw [hn]
    exact u64wsub_eq _ _ (two_pow_lt_two_pow_64 hs) h2
  have hshl1 : u64shl 1 a = 2 ^ a := by
    have := u64shl_eq 1 a ha (by simpa using two_pow_lt_two_pow_64 ha)
    simpa using this
  have hmask : u64shl (2 ^ s - 1) a = (2 ^ s - 1) * 2 ^ a := u64shl_eq _ _ ha hmul
  have hws2 : u64wsub (2 ^ a) 1 = 2 ^ a - 1 := u64wsub_eq _ _ (two_pow_lt_two_pow_64 ha) h1
  have hnot : u64not (2 ^ a - 1) = 2 ^ 64 - 2 ^ a := by
    rw [u64not_eq _ (by have := two_pow_le_two_pow_64 (le_of_lt ha); omega)]
    omega
  have h32a : (64 : Nat) - s - a < 2 ^ 32 := by
    have : (2 : Nat) ^ 32 = 4294967296 := by norm_num
    omega
  have hu32a : u32wsub 64 s = 64 - s := u32wsub_eq 64 s (by norm_num) (by omega)
  have h32b : (64 : Nat) - s < 2 ^ 32 := by
    have h32 : (2 : Nat) ^ 32 = 4294967296 := by norm_num
    omega
  have hu32b : u32wsub (64 - s) a = 64 - s - a := u32wsub_eq _ _ h32b (by omega)
  have hsh64 : u64shl 1 (64 - s - a) = 2 ^ (64 - s - a) := by
    have := u64shl_eq 1 (64 - s - a) (by omega) (by
      simpa using two_pow_lt_two_pow_64 (a := 64 - s - a) (by omega))
    simpa using this
  have hws3 : u64wsub (2 ^ (64 - s - a)) 1 = 2 ^ (64 - s - a) - 1 :=
    u64wsub_eq _ _ (two_pow_lt_two_pow_64 (by omega)) Nat.one_le_two_pow
  have htagmul : ((2 : Nat) ^ (64 - s - a) - 1) * 2 ^ (a + s) < 2 ^ 64 := by
    calc ((2 : Nat) ^ (64 - s - a) - 1) * 2 ^ (a + s) < 2 ^ (64 - s - a) * 2 ^ (a + s) :=
          (Nat.mul_lt_mul_right (Nat.pos_pow_of_pos _ (by norm_num))).mpr
            (by have := Nat.one_le_two_pow (n := 64 - s - a); omega)
      _ = 2 ^ ((64 - s - a) + (a + s)) := (Nat.pow_add 2 (64 - s - a) (a + s)).symm
      _ ≤ 2 ^ 64 := two_pow_le_two_pow_64 (by omega)
  have hmod256 : (a + s) % 256 = a + s := Nat.mod_eq_of_lt (by omega)
  have htagshl : u64shl (2 ^ (64 - s - a) - 1) (a + s) =
      (2 ^ (64 - s - a) - 1) * 2 ^ (a + s) := u64shl_eq _ _ (by omega) htagmul
  refine ⟨?_, ?_, ?_, ?_⟩
  · simp only [Cache.new, htz1]
  · simp only [Cache.new, htz1, hws1, hmask]
  · simp only [Cache.new, htz1, hshl1, hws2, hnot]
  · simp only [Cache.new, htz1, htz2, hu32a, hu32b, hsh64, hws3, hmod256, htagshl]

theorem and_mask_absorb (input m k : Nat) (hm : m % 2 ^ k = 0) (hi : input < 2 ^ 64)
    (hk : k ≤ 64) :
    (input &&& (2 ^ 64 - 2 ^ k)) &&& m = input &&& m := by
  have hp : (2 : Nat) ^ (64 - k) * 2 ^ k = 2 ^ 64 := by
    rw [← Nat.pow_add]
    congr 1
    omega
  have hsplit : (2 : Nat) ^ 64 - 2 ^ k = 2 ^ k * (2 ^ (64 - k) - 1) := by
    calc (2 : Nat) ^ 64 - 2 ^ k = 2 ^ (64 - k) * 2 ^ k - 1 * 2 ^ k := by rw [hp, Nat.one_mul]
      _ = (2 ^ (64 - k) - 1) * 2 ^ k := (Nat.sub_mul _ _ _).symm
      _ = 2 ^ k * (2 ^ (64 - k) - 1) := Nat.mul_comm _ _
  apply Nat.eq_of_testBit_eq
  intro i
  simp only [Nat.testBit_and]
  by_cases h1 : i < k
  · have h0 := Nat.testBit_mod_two_pow m k i
    rw [hm, Nat.zero_testBit] at h0
    simp only [h1, decide_True, Bool.true_and] at h0
    simp only [← h0, Bool.and_false]
  · by_cases h2 : i < 64
    · have hge : k ≤ i := Nat.le_of_not_lt h1
      have h3 : i - k < 64 - k := by omega
      have hMb : ((2 : Nat) ^ 64 - 2 ^ k).testBit i = true := by
        rw [hsplit, Nat.testBit_mul_pow_two, Nat.testBit_two_pow_sub_one]
        simp [hge, h3]
      rw [hMb, Bool.and_true]
    · have hib : input.testBit i = false :=
        Nat.testBit_lt_two_pow
          (lt_of_lt_of_le hi (Nat.pow_le_pow_right (by norm_num) (by omega)))
      simp only [hib, Bool.false_and]

/-- `read_and_update_line` depends on the address only through
`address_to_set_and_tag`. -/
theorem read_and_update_line_congr (c : Cache) (x y : Nat)
    (h : c.address_to_set_and_tag x = c.address_to_set_and_tag y) :
    c.read_and_update_line x = c.read_and_update_line y := by
  simp only [Cache.read_and_update_line, h]

/-- The alignment mask of a cache constructed with line size 1. -/
theorem Cache.new_align_mask_one (size num_sets : Nat) (policy : ReplacementPolicy) :
    (Cache.new size 1 num_sets policy).cache_alignment_bit_mask = 2 ^ 64 - 1 := by
  simp only [Cache.new]
  decide

/-- The tag-scan loop returns the first index of the set range holding the
tag, as a `findIdx?` over the scanned slice. -/
theorem scanSet_eq (cache : List Nat) (tag : Nat) :
    ∀ (cnt x : Nat), x + cnt ≤ cache.length →
      scanSet cache tag x cnt =
        some ((((cache.drop x).take cnt).findIdx? (fun v => v == tag)).map (fun j => x + j))
  | 0, x, _ => by simp [scanSet]
  | cnt + 1, x, h => by
    have hx : x < cache.length := by omega
    have hget : cache[x]? = some cache[x] := List.getElem?_eq_getElem hx
    have hdrop : cache.drop x = cache[x] :: cache.drop (x + 1) := List.drop_eq_getElem_cons hx
    have hih := scanSet_eq cache tag cnt (x + 1) (by omega)
    simp only [scanSet, hget, hdrop, List.take_succ_cons, List.findIdx?_cons]
    by_cases heq : cache[x] = tag
    · simp [heq]
    · have hbeq : (cache[x] == tag) = false := by simp [heq]
      rw [if_neg heq, hih]
      simp only [hbeq, Bool.false_eq_true, if_false, List.findIdx?_start_succ, Option.map_map]
      congr 1
      congr 1
      funext j
      simp only [Function.comp]
      omega

/-! ## Claim theorems: C1, C10 -/

/-- C1: for every cache level and every address, `read_and_update_line`
computes `set = (addr & set_mask) >> alignment_shift` and
`tag = addr & tag_mask`, scans the tag cells of the set
(indices `set * set_size` to `set * set_size + set_size`, exclusive) in
increasing order; on the first matching cell it calls
`policy.update_on_read` on that index and returns true; otherwise it calls
`policy.get_new_line(set_base, set, ways)`, overwrites exactly the returned
cell with the tag, and returns false. -/
theorem c1_read_and_update_line_spec (c : Cache) (addr set tag : Nat)
    (hst : c.address_to_set_and_tag addr = (set, tag))
    (hbound : set * c.set_size + c.set_size ≤ c.cache.length) :
    (set = (addr &&& c.set_selection_bit_mask) >>> c.cache_alignment_bits ∧
      tag = addr &&& c.tag_selection_bit_mask) ∧
    (∀ j, ((c.cache.drop (set * c.set_size)).take c.set_size).findIdx?
        (fun v => v == tag) = some j →
      c.read_and_update_line addr =
        (c.replacement_policy.update_on_read (set * c.set_size + j)).map
          (fun p => (true, { c with replacement_policy := p }))) ∧
    (((c.cache.drop (set * c.set_size)).take c.set_size).findIdx?
        (fun v => v == tag) = none →
      ∀ line p,
        c.replacement_policy.get_new_line (set * c.set_size) set c.set_size = some (line, p) →
        line < c.cache.length →
        c.read_and_update_line addr =
          some (false, { c with cache := c.cache.set line tag, replacement_policy := p })) := by
  have hst2 := hst
  rw [Cache.address_to_set_and_tag] at hst2
  have e1 : (addr &&& c.set_selection_bit_mask) >>> c.cache_alignment_bits = set :=
    congrArg Prod.fst hst2
  have e2 : addr &&& c.tag_selection_bit_mask = tag := congrArg Prod.snd hst2
  have hscan := scanSet_eq c.cache tag c.set_size (set * c.set_size) hbound
  refine ⟨⟨e1.symm, e2.symm⟩, ?_, ?_⟩
  · intro j hj
    simp [Cache.read_and_update_line, hst, hscan, hj]
  · intro hnone line p hline hlt
    simp [Cache.read_and_update_line, hst, hscan, hnone, hline, hlt]

/-- A small concrete direct-mapped level (16 bytes, 4-byte lines, 4 sets). -/
def exDirectCache : Cache := Cache.new 16 4 4 .noPolicy

/-- Witness for C1 at a concrete cache and address (a cold miss at 0x10). -/
theorem c1_read_and_update_line_spec_witness :
    (exDirectCache.address_to_set_and_tag 16 = (0, 16) ∧
      0 * exDirectCache.set_size + exDirectCache.set_size ≤ exDirectCache.cache.length ∧
      ((exDirectCache.cache.drop (0 * exDirectCache.set_size)).take exDirectCache.set_size).findIdx?
        (fun v => v == 16) = none ∧
      exDirectCache.replacement_policy.get_new_line (0 * exDirectCache.set_size) 0
        exDirectCache.set_size = some (0, .noPolicy) ∧
      0 < exDirectCache.cache.length) ∧
    exDirectCache.read_and_update_line 16 =
      some (false,
        { exDirectCache with cache := exDirectCache.cache.set 0 16,
                             replacement_policy := .noPolicy }) :=
  ⟨⟨by decide, by decide, by decide, by decide, by decide⟩,
    (c1_read_and_update_line_spec exDirectCache 16 0 16 (by decide) (by decide)).2.2
      (by decide) 0 .noPolicy (by decide) (by decide)⟩

/-- C10: for a constructed cache level (power-of-two line size and set count),
`read_and_update_line` at `addr & alignment_mask` returns the same flag and
the same updated cache as at `addr`: the set and tag masks exclude the
intra-line offset bits, so the alignment precondition is not required. -/
theorem c10_alignment_precondition_not_required
    (size line_size num_sets input a s : Nat) (policy : ReplacementPolicy)
    (hl : line_size = 2 ^ a) (hn : num_sets = 2 ^ s) (ha : a < 64) (hs : s < 64)
    (has : a + s < 64) (hi : input < 2 ^ 64) :
    (Cache.new size line_size num_sets policy).read_and_update_line
        (input &&& (Cache.new size line_size num_sets policy).cache_alignment_bit_mask) =
      (Cache.new size line_size num_sets policy).read_and_update_line input := by
  apply read_and_update_line_congr
  rcases Nat.eq_zero_or_pos a with ha0 | hap
  · subst ha0
    have hl1 : line_size = 1 := by simpa using hl
    subst hl1
    rw [Cache.new_align_mask_one]
    have hin : input &&& (2 ^ 64 - 1) = input := by
      rw [Nat.and_pow_two_sub_one_eq_mod, Nat.mod_eq_of_lt hi]
    rw [hin]
  · have hpos : 0 < a + s := by omega
    obtain ⟨hbits, hset, halign, htag⟩ :=
      Cache.new_fields size line_size num_sets a s policy hl hn ha hs has hpos
    have hsmod : ((2 ^ s - 1) * 2 ^ a) % 2 ^ a = 0 := Nat.mul_mod_left _ _
    have htmodeq : ((2 : Nat) ^ (64 - s - a) - 1) * 2 ^ (a + s) =
        ((2 ^ (64 - s - a) - 1) * 2 ^ s) * 2 ^ a := by
      rw [Nat.pow_add]
      ring
    have htmod : (((2 : Nat) ^ (64 - s - a) - 1) * 2 ^ (a + s)) % 2 ^ a = 0 := by
      rw [htmodeq]
      exact Nat.mul_mod_left _ _
    simp only [Cache.address_to_set_and_tag, halign, hset, htag]
    rw [and_mask_absorb input _ a hsmod hi (by omega),
      and_mask_absorb input _ a htmod hi (by omega)]

/-- Witness for C10: a 2-way 16-byte cache with 4-byte lines, at the
unaligned address 0x13. -/
theorem c10_alignment_precondition_not_required_witness :
    ((4 : Nat) = 2 ^ 2 ∧ (2 : Nat) = 2 ^ 1 ∧ (2 : Nat) < 64 ∧ (1 : Nat) < 64 ∧
      (2 : Nat) + 1 < 64 ∧ (19 : Nat) < 2 ^ 64) ∧
    (Cache.new 16 4 2 (.roundRobin (List.replicate 2 0))).read_and_update_line
        (19 &&& (Cache.new 16 4 2 (.roundRobin (List.replicate 2 0))).cache_alignment_bit_mask) =
      (Cache.new 16 4 2 (.roundRobin (List.replicate 2 0))).read_and_update_line 19 :=
  ⟨⟨by decide, by decide, by decide, by decide, by decide, by decide⟩,
    c10_alignment_precondition_not_required 16 4 2 19 2 1 (.roundRobin (List.replicate 2 0))
      (by decide) (by decide) (by decide) (by decide) (by decide) (by decide)⟩

/-- The argmin scan returns either the initial accumulator (when no cell is
below it) or the first index of the scanned range attaining the minimum. -/
theorem scanMin_spec (l : List Nat) :
    ∀ (cnt x mv mi : Nat), x + cnt ≤ l.length →
      ∃ mv2 mi2, scanMin l cnt x mv mi = some (mv2, mi2) ∧
        ((mv2 = mv ∧ mi2 = mi ∧ ∀ j, x ≤ j → j < x + cnt → mv ≤ l.getD j 0) ∨
          (x ≤ mi2 ∧ mi2 < x + cnt ∧ l.getD mi2 0 = mv2 ∧ mv2 < mv ∧
            (∀ j, x ≤ j → j < x + cnt → mv2 ≤ l.getD j 0) ∧
            (∀ j, x ≤ j → j < mi2 → mv2 < l.getD j 0)))
  | 0, x, mv, mi, _ =>
    ⟨mv, mi, by simp [scanMin], Or.inl ⟨rfl, rfl, by intro j h1 h2; omega⟩⟩
  | cnt + 1, x, mv, mi, h => by
    have hx : x < l.length := by omega
    have hget : l[x]? = some l[x] := List.getElem?_eq_getElem hx
    have hgd : l.getD x 0 = l[x] := by simp [List.getD_eq_getElem?_getD, hget]
    by_cases hv : l[x] < mv
    · obtain ⟨mv2, mi2, heq, hcase⟩ := scanMin_spec l cnt (x + 1) l[x] x (by omega)
      refine ⟨mv2, mi2, ?_, ?_⟩
      · simp only [scanMin, hget, if_pos hv, heq]
      · rcases hcase with ⟨e1, e2, hall⟩ | ⟨h1, h2, h3, h4, h5, h6⟩
        · subst e1
          subst e2
          right
          refine ⟨by omega, by omega, hgd, hv, ?_, ?_⟩
          · intro j hj1 hj2
            rcases Nat.eq_or_lt_of_le hj1 with rfl | hlt
            · rw [hgd]
            · exact hall j (by omega) (by omega)
          · intro j hj1 hj2
            omega
        · right
          refine ⟨by omega, by omega, h3, by omega, ?_, ?_⟩
          · intro j hj1 hj2
            rcases Nat.eq_or_lt_of_le hj1 with rfl | hlt
            · rw [hgd]
              omega
            · exact h5 j (by omega) (by omega)
          · intro j hj1 hj2
            rcases Nat.eq_or_lt_of_le hj1 with rfl | hlt
            · rw [hgd]
              omega
            · exact h6 j (by omega) hj2
    · obtain ⟨mv2, mi2, heq, hcase⟩ := scanMin_spec l cnt (x + 1) mv mi (by omega)
      refine ⟨mv2, mi2, ?_, ?_⟩
      · simp only [scanMin, hget, if_neg hv, heq]
      · rcases hcase with ⟨e1, e2, hall⟩ | ⟨h1, h2, h3, h4, h5, h6⟩
        · left
          refine ⟨e1, e2, ?_⟩
          intro j hj1 hj2
          rcases Nat.eq_or_lt_of_le hj1 with rfl | hlt
          · rw [hgd]
            omega
          · exact hall j (by omega) (by omega)
        · right
          refine ⟨by omega, by omega, h3, h4, ?_, ?_⟩
          · intro j hj1 hj2
            rcases Nat.eq_or_lt_of_le hj1 with rfl | hlt
            · rw [hgd]
              omega
            · exact h5 j (by omega) (by omega)
          · intro j hj1 hj2
            rcases Nat.eq_or_lt_of_le hj1 with rfl | hlt
            · rw [hgd]
              omega
            · exact h6 j (by omega) hj2

/-! ## Claim theorems: C5, C6 -/

/-- C5: for the LRU policy, `update_on_read(i)` writes the current clock value
to `last_used[i]` and then increments the clock; `get_new_line(base, _, ways)`
returns the index of the minimum value of `last_used[base .. base+ways)` with
ties broken by the lowest index, writes the current clock to that entry, and
increments the clock. -/
theorem c5_lru_policy_spec :
    (∀ (last_used_times : List Nat) (time i : Nat),
      i < last_used_times.length → time + 1 < 2 ^ 64 →
      ReplacementPolicy.update_on_read (.leastRecentlyUsed last_used_times time) i =
        some (.leastRecentlyUsed (last_used_times.set i time) (time + 1))) ∧
    (∀ (last_used_times : List Nat) (time base set ways : Nat),
      1 ≤ ways → base + ways ≤ last_used_times.length → time + 1 < 2 ^ 64 →
      (∃ j, base ≤ j ∧ j < base + ways ∧ last_used_times.getD j 0 < 2 ^ 64 - 1) →
      ∃ m, ReplacementPolicy.get_new_line (.leastRecentlyUsed last_used_times time)
            base set ways =
          some (m, .leastRecentlyUsed (last_used_times.set m time) (time + 1)) ∧
        base ≤ m ∧ m < base + ways ∧
        (∀ j, base ≤ j → j < base + ways →
          last_used_times.getD m 0 ≤ last_used_times.getD j 0) ∧
        (∀ j, base ≤ j → j < m →
          last_used_times.getD m 0 < last_used_times.getD j 0)) := by
  constructor
  · intro lu time i hi ht
    simp only [ReplacementPolicy.update_on_read]
    rw [if_pos hi, Nat.mod_eq_of_lt ht]
  · intro lu time base set ways hw hb ht hex
    obtain ⟨mv2, mi2, heq, hcase⟩ := scanMin_spec lu ways base (2 ^ 64 - 1) (2 ^ 64 - 1) hb
    rcases hcase with ⟨e1, e2, hall⟩ | ⟨h1, h2, h3, h4, h5, h6⟩
    · obtain ⟨j, hj1, hj2, hj3⟩ := hex
      have := hall j hj1 hj2
      omega
    · refine ⟨mi2, ?_, h1, h2, ?_, ?_⟩
      · simp only [ReplacementPolicy.get_new_line, heq]
        rw [if_pos (by omega), Nat.mod_eq_of_lt ht]
      · intro j hj1 hj2
        rw [h3]
        exact h5 j hj1 hj2
      · intro j hj1 hj2
        rw [h3]
        exact h6 j hj1 hj2

/-- Witness for C5: updating line 1 of a three-line LRU state at clock 9. -/
theorem c5_lru_policy_spec_witness :
    ((1 : Nat) < ([5, 3, 7] : List Nat).length ∧ (9 : Nat) + 1 < 2 ^ 64) ∧
    ReplacementPolicy.update_on_read (.leastRecentlyUsed [5, 3, 7] 9) 1 =
      some (.leastRecentlyUsed (([5, 3, 7] : List Nat).set 1 9) (9 + 1)) :=
  ⟨⟨by decide, by decide⟩,
    c5_lru_policy_spec.1 [5, 3, 7] 9 1 (by decide) (by decide)⟩

/-- C6: for the LFU policy, `update_on_read(i)` increments `usage[i]` by one,
and `get_new_line` returns the index of the minimum usage counter over the set
(ties broken by the lowest index) and sets that victim's usage counter to
exactly 1, not 0. -/
theorem c6_lfu_policy_spec :
    (∀ (usages : List Nat) (i : Nat),
      i < usages.length → usages.getD i 0 + 1 < 2 ^ 64 →
      ReplacementPolicy.update_on_read (.leastFrequentlyUsed usages) i =
        some (.leastFrequentlyUsed (usages.set i (usages.getD i 0 + 1)))) ∧
    (∀ (usages : List Nat) (base set ways : Nat),
      1 ≤ ways → base + ways ≤ usages.length →
      (∃ j, base ≤ j ∧ j < base + ways ∧ usages.getD j 0 < 2 ^ 64 - 1) →
      ∃ m, ReplacementPolicy.get_new_line (.leastFrequentlyUsed usages) base set ways =
          some (m, .leastFrequentlyUsed (usages.set m 1)) ∧
        (usages.set m 1).getD m 0 = 1 ∧
        base ≤ m ∧ m < base + ways ∧
        (∀ j, base ≤ j → j < base + ways → usages.getD m 0 ≤ usages.getD j 0) ∧
        (∀ j, base ≤ j → j < m → usages.getD m 0 < usages.getD j 0)) := by
  constructor
  · intro us i hi hv
    simp only [ReplacementPolicy.update_on_read]
    rw [if_pos hi, Nat.mod_eq_of_lt hv]
  · intro us base set ways hw hb hex
    obtain ⟨mv2, mi2, heq, hcase⟩ := scanMin_spec us ways base (2 ^ 64 - 1) (2 ^ 64 - 1) hb
    rcases hcase with ⟨e1, e2, hall⟩ | ⟨h1, h2, h3, h4, h5, h6⟩
    · obtain ⟨j, hj1, hj2, hj3⟩ := hex
      have := hall j hj1 hj2
      omega
    · have hm : mi2 < us.length := by omega
      refine ⟨mi2, ?_, ?_, h1, h2, ?_, ?_⟩
      · simp only [ReplacementPolicy.get_new_line, heq]
        rw [if_pos hm]
      · simp [List.getD_eq_getElem?_getD, List.getElem?_set_self (by simpa using hm)]
      · intro j hj1 hj2
        rw [h3]
        exact h5 j hj1 hj2
      · intro j hj1 hj2
        rw [h3]
        exact h6 j hj1 hj2

/-- Witness for C6: a read of line 2 of a three-line LFU state. -/
theorem c6_lfu_policy_spec_witness :
    ((2 : Nat) < ([4, 2, 6] : List Nat).length ∧
      ([4, 2, 6] : List Nat).getD 2 0 + 1 < 2 ^ 64) ∧
    ReplacementPolicy.update_on_read (.leastFrequentlyUsed [4, 2, 6]) 2 =
      some (.leastFrequentlyUsed (([4, 2, 6] : List Nat).set 2
        (([4, 2, 6] : List Nat).getD 2 0 + 1))) :=
  ⟨⟨by decide, by decide⟩,
    c6_lfu_policy_spec.1 [4, 2, 6] 2 (by decide) (by decide)⟩

/-! ## Parser lemmas and C8 -/

theorem map_hex_char_lt (c : Nat) : map_hex_char c < 16 := by
  unfold map_hex_char
  split
  · omega
  · split
    · omega
    · split
      · omega
      · omega

theorem map_hex_char_eq_hexDigitVal (c : Nat) : map_hex_char c = hexDigitVal c := rfl

/-- The generated lookup table decodes a pair of bytes as two hex digits. -/
theorem hexLookup_eq (a b : Nat) : hexLookup a b = 16 * hexDigitVal a + hexDigitVal b := by
  have ha : map_hex_char a < 16 := map_hex_char_lt a
  have hb : map_hex_char b < 16 := map_hex_char_lt b
  have hsh : map_hex_char a <<< 4 = map_hex_char a * 16 := by
    rw [Nat.shiftLeft_eq]
  have hmod : map_hex_char a * 16 % 256 = map_hex_char a * 16 := Nat.mod_eq_of_lt (by omega)
  have hor := Nat.mul_add_lt_is_or (i := 4) (b := map_hex_char b) (by
    have h16 : (2 : Nat) ^ 4 = 16 := by norm_num
    omega) (map_hex_char a)
  have h16 : (2 : Nat) ^ 4 = 16 := by norm_num
  rw [h16] at hor
  unfold hexLookup
  rw [hsh, hmod, Nat.mul_comm (map_hex_char a) 16, ← hor,
    map_hex_char_eq_hexDigitVal, map_hex_char_eq_hexDigitVal]

/-- Scaling identity for the base-16 fold. -/
theorem foldl_hex_scale : ∀ (l : List Nat) (acc : Nat),
    l.foldl (fun a c => 16 * a + hexDigitVal c) acc = acc * 16 ^ l.length + hexDecode l
  | [], acc => by simp [hexDecode]
  | c :: t, acc => by
    have h1 := foldl_hex_scale t (16 * acc + hexDigitVal c)
    have h2 := foldl_hex_scale t (16 * 0 + hexDigitVal c)
    simp only [hexDecode, List.foldl_cons, List.length_cons] at h1 h2 ⊢
    rw [h1, h2]
    ring

/-- The pairwise table loop of `parse_address` computes the standard
big-endian base-16 value, for even-length buffers small enough not to
overflow a u64. -/
theorem parseAddressLoop_eq :
    ∀ (l : List Nat) (res : Nat), l.length % 2 = 0 →
      (res + 1) * 16 ^ l.length ≤ 2 ^ 64 →
      parseAddressLoop res l = res * 16 ^ l.length + hexDecode l
  | [], res, _, _ => by simp [parseAddressLoop, hexDecode]
  | [a], res, h, _ => by simp at h
  | a :: b :: rest, res, h, hbound => by
    have hn2 : rest.length % 2 = 0 := by
      simp only [List.length_cons] at h
      omega
    have hlkl : hexLookup a b < 256 := by
      have h1 := hexDigitVal_lt a
      have h2 := hexDigitVal_lt b
      have h3 := hexLookup_eq a b
      omega
    have h16pos : (0 : Nat) < 16 ^ rest.length := Nat.pos_pow_of_pos _ (by norm_num)
    have hb1 : (res + 1) * 256 * 16 ^ rest.length ≤ 2 ^ 64 := by
      have hpow : (16 : Nat) ^ (rest.length + 1 + 1) = 256 * 16 ^ rest.length := by ring
      calc (res + 1) * 256 * 16 ^ rest.length = (res + 1) * (256 * 16 ^ rest.length) :=
            Nat.mul_assoc _ _ _
        _ = (res + 1) * 16 ^ (rest.length + 1 + 1) := by rw [hpow]
        _ ≤ 2 ^ 64 := by simpa using hbound
    have hA : (res + 1) * 256 ≤ 2 ^ 64 :=
      le_trans (Nat.le_mul_of_pos_right _ h16pos) hb1
    have hres : res * 256 < 2 ^ 64 := by omega
    have hshl : (res <<< 8) % 2 ^ 64 = res * 256 := by
      rw [Nat.shiftLeft_eq]
      have h28 : (2 : Nat) ^ 8 = 256 := by norm_num
      rw [h28]
      exact Nat.mod_eq_of_lt hres
    have hor : res * 256 ||| hexLookup a b = res * 256 + hexLookup a b := by
      have h2 := Nat.mul_add_lt_is_or (i := 8) (b := hexLookup a b) (by
        have h28 : (2 : Nat) ^ 8 = 256 := by norm_num
        omega) res
      have h28 : (2 : Nat) ^ 8 = 256 := by norm_num
      rw [h28, Nat.mul_comm 256 res] at h2
      exact h2.symm
    have hstep : parseAddressLoop res (a :: b :: rest) =
        parseAddressLoop (res * 256 + hexLookup a b) rest := by
      simp only [parseAddressLoop, hshl, hor]
    have hih := parseAddressLoop_eq rest (res * 256 + hexLookup a b) hn2 (by
      have hle : res * 256 + hexLookup a b + 1 ≤ (res + 1) * 256 := by omega
      calc (res * 256 + hexLookup a b + 1) * 16 ^ rest.length
          ≤ (res + 1) * 256 * 16 ^ rest.length := Nat.mul_le_mul_right _ hle
        _ ≤ 2 ^ 64 := hb1)
    have hdec : hexDecode (a :: b :: rest) =
        (16 * (16 * 0 + hexDigitVal a) + hexDigitVal b) * 16 ^ rest.length + hexDecode rest := by
      simp only [hexDecode, List.foldl_cons]
      exact foldl_hex_scale rest _
    rw [hstep, hih, hexLookup_eq a b, hdec]
    simp only [List.length_cons]
    ring

/-- C8: for every 16-byte buffer of well-formed ASCII hex characters,
`parse_address` returns the standard big-endian base-16 decode, and for every
3-byte buffer of ASCII decimal digits, `parse_size` returns
`100 * (b0 - 48) + 10 * (b1 - 48) + (b2 - 48)`, the standard decimal decode. -/
theorem c8_parser_roundtrip :
    (∀ buf : List Nat, buf.length = 16 → (∀ ch ∈ buf, isHexDigitByte ch = true) →
      parse_address buf = hexDecode buf) ∧
    (∀ b0 b1 b2 : Nat, 48 ≤ b0 → b0 ≤ 57 → 48 ≤ b1 → b1 ≤ 57 → 48 ≤ b2 → b2 ≤ 57 →
      parse_size [b0, b1, b2] = 100 * (b0 - 48) + 10 * (b1 - 48) + (b2 - 48) ∧
      parse_size [b0, b1, b2] = decimalDecode [b0, b1, b2]) := by
  constructor
  · intro buf hlen _
    have h := parseAddressLoop_eq buf 0 (by rw [hlen]) (by rw [hlen]; norm_num)
    rw [parse_address, h, hlen]
    norm_num
  · intro b0 b1 b2 h0a h0b h1a h1b h2a h2b
    have e0 : u8wsub b0 48 = b0 - 48 := by
      unfold u8wsub
      omega
    have e1 : u8wsub b1 48 = b1 - 48 := by
      unfold u8wsub
      omega
    have e2 : u8wsub b2 48 = b2 - 48 := by
      unfold u8wsub
      omega
    constructor
    · simp only [parse_size, e0, e1, e2]
      omega
    · simp only [parse_size, decimalDecode, List.foldl_cons, List.foldl_nil, e0, e1, e2]
      omega

/-- Witness for C8: the buffer b"00000000DEADBEEF" and the size field b"042". -/
theorem c8_parser_roundtrip_witness :
    (([48, 48, 48, 48, 48, 48, 48, 48, 68, 69, 65, 68, 66, 69, 69, 70] : List Nat).length = 16 ∧
      (∀ ch ∈ ([48, 48, 48, 48, 48, 48, 48, 48, 68, 69, 65, 68, 66, 69, 69, 70] : List Nat),
        isHexDigitByte ch = true) ∧
      (48 : Nat) ≤ 48 ∧ (48 : Nat) ≤ 57 ∧ (48 : Nat) ≤ 52 ∧ (52 : Nat) ≤ 57 ∧
      (48 : Nat) ≤ 50 ∧ (50 : Nat) ≤ 57) ∧
    parse_address [48, 48, 48, 48, 48, 48, 48, 48, 68, 69, 65, 68, 66, 69, 69, 70] =
      hexDecode [48, 48, 48, 48, 48, 48, 48, 48, 68, 69, 65, 68, 66, 69, 69, 70] ∧
    parse_size [48, 52, 50] = 100 * (48 - 48) + 10 * (52 - 48) + (50 - 48) :=
  ⟨⟨by decide, by decide, by decide, by decide, by decide, by decide, by decide, by decide⟩,
    c8_parser_roundtrip.1 [48, 48, 48, 48, 48, 48, 48, 48, 68, 69, 65, 68, 66, 69, 69, 70]
      (by decide) (by decide),
    (c8_parser_roundtrip.2 48 52 50 (by decide) (by decide) (by decide) (by decide)
      (by decide) (by decide)).1⟩

/-! ## Claim theorems: C9, C7 -/

/-- C9: building a simulator from a layered configuration with an empty cache
list fails with an error before any simulate call, rather than producing a
simulator (the guard in the binary's entry point precedes construction). -/
theorem c9_empty_config_rejected (config : LayeredCacheConfig) (h : config.caches = []) :
    mainBuildSimulator config =
      Except.error ("The provided file is valid, but the list of caches was empty") := by
  simp [mainBuildSimulator, h]

/-- Witness for C9: the literal empty configuration. -/
theorem c9_empty_config_rejected_witness :
    (LayeredCacheConfig.mk []).caches = [] ∧
    mainBuildSimulator (LayeredCacheConfig.mk []) =
      Except.error ("The provided file is valid, but the list of caches was empty") :=
  ⟨rfl, c9_empty_config_rejected (LayeredCacheConfig.mk []) rfl⟩

/-- C7: when the computed number of sets equals the number of lines,
construction selects the NoPolicy variant regardless of the configured
replacement policy, and two configurations differing only in that level's
replacement policy field produce identical simulators, hence identical hit
and miss counters on every trace. -/
theorem c7_direct_mapped_policy_irrelevant (c c2 : CacheConfig)
    (hname : c2.name = c.name) (hsize : c2.size = c.size) (hline : c2.line_size = c.line_size)
    (hkind : c2.kind = c.kind) (hdm : c.num_sets = c.num_lines) :
    (Simulator.config_to_cache c).replacement_policy = .noPolicy ∧
    Simulator.config_to_cache c2 = Simulator.config_to_cache c ∧
    ∀ (pre post : List CacheConfig) (bytes : List Nat),
      (Simulator.new ⟨pre ++ c2 :: post⟩).simulate bytes =
        (Simulator.new ⟨pre ++ c :: post⟩).simulate bytes := by
  have hlines : c2.num_lines = c.num_lines := by
    unfold CacheConfig.num_lines
    rw [hsize, hline]
  have hsets : c2.num_sets = c.num_sets := by
    unfold CacheConfig.num_sets
    rw [hkind, hlines]
  have hdm2 : c2.num_sets = c2.num_lines := by rw [hsets, hlines, hdm]
  have hcc : Simulator.config_to_cache c = Cache.new c.size c.line_size c.num_sets .noPolicy := by
    unfold Simulator.config_to_cache
    rw [if_pos hdm]
  have hcc2 : Simulator.config_to_cache c2 = Simulator.config_to_cache c := by
    unfold Simulator.config_to_cache
    rw [if_pos hdm2, if_pos hdm, hsize, hline, hsets]
  refine ⟨by rw [hcc]; rfl, hcc2, ?_⟩
  intro pre post bytes
  have hsim : Simulator.new ⟨pre ++ c2 :: post⟩ = Simulator.new ⟨pre ++ c :: post⟩ := by
    unfold Simulator.new
    simp only [List.map_append, List.map_cons]
    rw [hcc2, hname]
  rw [hsim]

/-- A direct-mapped configuration with the round-robin policy field. -/
def exDirectRR : CacheConfig :=
  { name := "l1", size := 16, line_size := 4, kind := .direct,
    replacement_policy := .roundRobin }

/-- The same configuration with the LRU policy field. -/
def exDirectLRU : CacheConfig :=
  { name := "l1", size := 16, line_size := 4, kind := .direct,
    replacement_policy := .leastRecentlyUsed }

/-- Witness for C7: a direct-mapped level configured with round-robin versus
the same level configured with LRU, on the empty trace. -/
theorem c7_direct_mapped_policy_irrelevant_witness :
    (exDirectLRU.name = exDirectRR.name ∧ exDirectLRU.size = exDirectRR.size ∧
      exDirectLRU.line_size = exDirectRR.line_size ∧ exDirectLRU.kind = exDirectRR.kind ∧
      exDirectRR.num_sets = exDirectRR.num_lines) ∧
    (Simulator.new ⟨[exDirectLRU]⟩).simulate [] =
      (Simulator.new ⟨[exDirectRR]⟩).simulate [] :=
  ⟨⟨rfl, rfl, rfl, rfl, by decide⟩,
    (c7_direct_mapped_policy_irrelevant exDirectRR exDirectLRU
      rfl rfl rfl rfl (by decide)).2.2 [] [] []⟩

/-! ## Level-walk lemmas -/

/-- Default cache record, used only as the `getD` fallback in statements. -/
def defaultCache : Cache :=
  { set_selection_bit_mask := 0
    tag_selection_bit_mask := 0
    cache_alignment_bit_mask := 0
    line_size := 0
    cache := []
    replacement_policy := .noPolicy
    cache_alignment_bits := 0
    set_size := 0 }

/-- Per-level totals are monotonically non-increasing down the hierarchy. -/
def monoTotals (rs : List CacheResult) : Prop :=
  ∀ i, cacheTotal (rs.getD (i + 1) emptyResult) ≤ cacheTotal (rs.getD i emptyResult)

/-- One walk down the levels increments the total of a prefix of the counter
list by exactly one and leaves the rest unchanged. -/
theorem walkLevels_bump (address : Nat) :
    ∀ (cs : List Cache) (rs : List CacheResult) (out : List Cache × List CacheResult),
      walkLevels address cs rs = some out →
      out.1.length = cs.length ∧ out.2.length = rs.length ∧
      ∃ k, k ≤ rs.length ∧ ∀ i, cacheTotal (out.2.getD i emptyResult) =
        cacheTotal (rs.getD i emptyResult) + (if i < k then 1 else 0)
  | [], rs, out, h => by
    simp only [walkLevels, Option.some_inj] at h
    subst h
    exact ⟨rfl, rfl, 0, by omega, fun i => by simp⟩
  | c :: cs, [], out, h => by
    simp only [walkLevels, Option.some_inj] at h
    subst h
    exact ⟨rfl, rfl, 0, by omega, fun i => by simp⟩
  | c :: cs, r :: rs, out, h => by
    simp only [walkLevels] at h
    split at h
    · exact absurd h (by simp)
    · rename_i c2 heq
      simp only [Option.some_inj] at h
      subst h
      refine ⟨by simp, by simp, 1, by simp, ?_⟩
      intro i
      cases i with
      | zero => simp [cacheTotal]; omega
      | succ n => simp
    · rename_i c2 heq
      cases hrec : walkLevels address cs rs with
      | none =>
        rw [hrec] at h
        exact absurd h (by simp)
      | some out2 =>
        rw [hrec] at h
        simp only [Option.some_inj] at h
        subst h
        obtain ⟨hl1, hl2, k, hk, hbump⟩ := walkLevels_bump address cs rs out2 hrec
        refine ⟨by simp [hl1], by simp [hl2], k + 1, by simp; omega, ?_⟩
        intro i
        cases i with
        | zero => simp [cacheTotal]; omega
        | succ n =>
          simp only [List.getD_cons_succ]
          rw [hbump n]
          by_cases hn : n < k
          · simp [hn, Nat.succ_lt_succ hn]
          · have : ¬(n + 1 < k + 1) := by omega
            simp [hn, this]

/-- Characterisation of one walk down the levels: there is a `k` such that
every level before `k` missed (its `read_and_update_line` returned false, its
miss counter was incremented), level `k` (when it exists) hit and stopped the
walk (hit counter incremented), and every deeper level was not visited. -/
theorem walkLevels_char (address : Nat) :
    ∀ (cs : List Cache) (rs : List CacheResult) (out : List Cache × List CacheResult),
      rs.length = cs.length →
      walkLevels address cs rs = some out →
      ∃ k, k ≤ cs.length ∧
        (∀ j, j < k →
          (cs.getD j defaultCache).read_and_update_line address =
            some (false, out.1.getD j defaultCache) ∧
          (out.2.getD j emptyResult).misses = (rs.getD j emptyResult).misses + 1 ∧
          (out.2.getD j emptyResult).hits = (rs.getD j emptyResult).hits ∧
          (out.2.getD j emptyResult).name = (rs.getD j emptyResult).name) ∧
        (k < cs.length →
          (cs.getD k defaultCache).read_and_update_line address =
            some (true, out.1.getD k defaultCache) ∧
          (out.2.getD k emptyResult).hits = (rs.getD k emptyResult).hits + 1 ∧
          (out.2.getD k emptyResult).misses = (rs.getD k emptyResult).misses ∧
          (out.2.getD k emptyResult).name = (rs.getD k emptyResult).name) ∧
        (∀ j, k < j →
          out.1.getD j defaultCache = cs.getD j defaultCache ∧
          out.2.getD j emptyResult = rs.getD j emptyResult)
  | [], rs, out, hlen, h => by
    simp only [walkLevels, Option.some_inj] at h
    subst h
    refine ⟨0, by omega, by omega, by intro h2; simp at h2, ?_⟩
    intro j hj
    exact ⟨rfl, rfl⟩
  | c :: cs, [], out, hlen, h => by
    simp at hlen
  | c :: cs, r :: rs, out, hlen, h => by
    simp only [walkLevels] at h
    split at h
    · exact absurd h (by simp)
    · rename_i c2 heq
      simp only [Option.some_inj] at h
      subst h
      refine ⟨0, by simp, by omega, ?_, ?_⟩
      · intro _
        exact ⟨by simpa using heq, by simp, by simp, by simp⟩
      · intro j hj
        obtain ⟨n, rfl⟩ : ∃ n, j = n + 1 := ⟨j - 1, by omega⟩
        simp
    · rename_i c2 heq
      cases hrec : walkLevels address cs rs with
      | none =>
        rw [hrec] at h
        exact absurd h (by simp)
      | some out2 =>
        rw [hrec] at h
        simp only [Option.some_inj] at h
        subst h
        have hlen2 : rs.length = cs.length := by simpa using hlen
        obtain ⟨k, hk, hmiss, hhit, hrest⟩ := walkLevels_char address cs rs out2 hlen2 hrec
        refine ⟨k + 1, by simp; omega, ?_, ?_, ?_⟩
        · intro j hj
          cases j with
          | zero => exact ⟨by simpa using heq, by simp, by simp, by simp⟩
          | succ n =>
            have := hmiss n (by omega)
            simpa using this
        · intro hk2
          have := hhit (by simpa using hk2)
          simpa using this
        · intro j hj
          obtain ⟨n, rfl⟩ : ∃ n, j = n + 1 := ⟨j - 1, by omega⟩
          have := hrest n (by omega)
          simpa using this

/-- The sub-access loop equals generating the address list and then
dispatching it: the iteration sequence is independent of the cache state. -/
theorem readLoop_eq_foldWalk (lowest_line_size upper : Nat) :
    ∀ (fuel current : Nat) (sim : Simulator),
      readLoop lowest_line_size upper fuel current sim =
        (subLoop lowest_line_size upper fuel current).bind (fun l => foldWalk l sim)
  | 0, current, sim => by simp [readLoop, subLoop]
  | fuel + 1, current, sim => by
    simp only [readLoop, subLoop]
    by_cases hc : current < upper
    · rw [if_pos hc, if_pos hc]
      split
      · rename_i hw
        cases subLoop lowest_line_size upper fuel ((current + lowest_line_size) % 2 ^ 64) with
        | none => simp
        | some rest => simp [foldWalk, hw]
      · rename_i cs rs hw
        rw [readLoop_eq_foldWalk lowest_line_size upper fuel]
        cases subLoop lowest_line_size upper fuel ((current + lowest_line_size) % 2 ^ 64) with
        | none => simp
        | some rest => simp [foldWalk, hw]
    · rw [if_neg hc, if_neg hc]
      simp [foldWalk]

/-- `Simulator::read` on a non-empty cache list equals dispatching the
generated sub-access address list. -/
theorem read_eq_foldWalk (sim : Simulator) (first_cache : Cache) (rest : List Cache)
    (address size : Nat) (hc : sim.caches = first_cache :: rest) :
    sim.read address size =
      (subAccessList first_cache.cache_alignment_bit_mask first_cache.line_size
        address size).bind (fun l => foldWalk l sim) := by
  rw [Simulator.read, hc, subAccessList]
  exact readLoop_eq_foldWalk _ _ _ _ _

/-- Dispatching a list of sub-accesses never touches `main_memory_accesses`. -/
theorem foldWalk_mma :
    ∀ (l : List Nat) (sim sim2 : Simulator), foldWalk l sim = some sim2 →
      sim2.result.main_memory_accesses = sim.result.main_memory_accesses
  | [], sim, sim2, h => by
    simp only [foldWalk, Option.some_inj] at h
    subst h
    rfl
  | a :: rest, sim, sim2, h => by
    simp only [foldWalk] at h
    split at h
    · exact absurd h (by simp)
    · rename_i out cs rs heq
      exact (foldWalk_mma rest _ sim2 h).trans rfl

/-- Dispatching a list of sub-accesses preserves monotone totals. -/
theorem foldWalk_mono :
    ∀ (l : List Nat) (sim sim2 : Simulator), foldWalk l sim = some sim2 →
      monoTotals sim.result.caches → monoTotals sim2.result.caches
  | [], sim, sim2, h, hm => by
    simp only [foldWalk, Option.some_inj] at h
    subst h
    exact hm
  | a :: rest, sim, sim2, h, hm => by
    simp only [foldWalk] at h
    split at h
    · exact absurd h (by simp)
    · rename_i out cs rs heq
      refine foldWalk_mono rest _ sim2 h ?_
      obtain ⟨_, _, k, hk, hbump⟩ := walkLevels_bump a sim.caches sim.result.caches (cs, rs) heq
      intro i
      have h1 := hbump i
      have h2 := hbump (i + 1)
      have h3 := hm i
      simp only at h1 h2
      rw [h1, h2]
      by_cases hik : i + 1 < k
      · rw [if_pos hik, if_pos (show i < k by omega)]
        omega
      · rw [if_neg hik]
        by_cases hik2 : i < k
        · rw [if_pos hik2]
          omega
        · rw [if_neg hik2]
          omega

/-- `Simulator::read` preserves `main_memory_accesses`. -/
theorem read_mma (sim sim2 : Simulator) (address size : Nat)
    (h : sim.read address size = some sim2) :
    sim2.result.main_memory_accesses = sim.result.main_memory_accesses := by
  cases hc : sim.caches with
  | nil =>
    rw [Simulator.read, hc] at h
    exact absurd h (by simp)
  | cons first_cache rest =>
    rw [read_eq_foldWalk sim first_cache rest address size hc] at h
    cases hs : subAccessList first_cache.cache_alignment_bit_mask first_cache.line_size
        address size with
    | none =>
      rw [hs] at h
      exact absurd h (by simp)
    | some l =>
      rw [hs] at h
      exact foldWalk_mma l sim sim2 h

/-- `Simulator::read` preserves monotone totals. -/
theorem read_mono (sim sim2 : Simulator) (address size : Nat)
    (h : sim.read address size = some sim2) (hm : monoTotals sim.result.caches) :
    monoTotals sim2.result.caches := by
  cases hc : sim.caches with
  | nil =>
    rw [Simulator.read, hc] at h
    exact absurd h (by simp)
  | cons first_cache rest =>
    rw [read_eq_foldWalk sim first_cache rest address size hc] at h
    cases hs : subAccessList first_cache.cache_alignment_bit_mask first_cache.line_size
        address size with
    | none =>
      rw [hs] at h
      exact absurd h (by simp)
    | some l =>
      rw [hs] at h
      exact foldWalk_mono l sim sim2 h hm

/-- The record loop preserves `main_memory_accesses`. -/
theorem simLoop_mma (bytes : List Nat) :
    ∀ (fuel i : Nat) (sim sim2 : Simulator), simLoop bytes fuel i sim = some sim2 →
      sim2.result.main_memory_accesses = sim.result.main_memory_accesses
  | 0, i, sim, sim2, h => by
    simp only [simLoop] at h
    split at h
    · exact absurd h (by simp)
    · simp only [Option.some_inj] at h
      subst h
      rfl
  | fuel + 1, i, sim, sim2, h => by
    simp only [simLoop] at h
    split at h
    · split at h
      · split at h
        · exact absurd h (by simp)
        · rename_i sim3 hread
          exact (simLoop_mma bytes fuel (i + 40) sim3 sim2 h).trans
            (read_mma sim sim3 _ _ hread)
      · exact absurd h (by simp)
    · simp only [Option.some_inj] at h
      subst h
      rfl

/-- The record loop preserves monotone totals. -/
theorem simLoop_mono (bytes : List Nat) :
    ∀ (fuel i : Nat) (sim sim2 : Simulator), simLoop bytes fuel i sim = some sim2 →
      monoTotals sim.result.caches → monoTotals sim2.result.caches
  | 0, i, sim, sim2, h, hm => by
    simp only [simLoop] at h
    split at h
    · exact absurd h (by simp)
    · simp only [Option.some_inj] at h
      subst h
      exact hm
  | fuel + 1, i, sim, sim2, h, hm => by
    simp only [simLoop] at h
    split at h
    · split at h
      · split at h
        · exact absurd h (by simp)
        · rename_i sim3 hread
          exact simLoop_mono bytes fuel (i + 40) sim3 sim2 h
            (read_mono sim sim3 _ _ hread hm)
      · exact absurd h (by simp)
    · simp only [Option.some_inj] at h
      subst h
      exact hm

/-- A freshly constructed simulator has all counters at zero. -/
theorem new_totals_zero (config : LayeredCacheConfig) :
    ∀ i, cacheTotal ((Simulator.new config).result.caches.getD i emptyResult) = 0 := by
  intro i
  simp only [Simulator.new]
  cases h : (config.caches.map fun cache =>
      ({ hits := 0, misses := 0, name := cache.name } : CacheResult))[i]? with
  | none => simp [List.getD_eq_getElem?_getD, h, emptyResult, cacheTotal]
  | some r =>
    have hr : r ∈ config.caches.map fun cache =>
        ({ hits := 0, misses := 0, name := cache.name } : CacheResult) :=
      List.getElem?_mem h
    simp only [List.mem_map] at hr
    obtain ⟨cc, _, hcc⟩ := hr
    simp [List.getD_eq_getElem?_getD, h, ← hcc, cacheTotal]

/-! ## Claim theorems: C3, C4 -/

/-- C3: each sub-access walks the levels in configuration order, incrementing
the hit counter of the first level whose `read_and_update_line` returns true
and the miss counter of every level walked before it (all levels when none
hits); consequently, after a successful `simulate` on a fresh simulator,
`hits + misses` is monotonically non-increasing down the level list. -/
theorem c3_hit_propagation :
    (∀ (address : Nat) (cs : List Cache) (rs : List CacheResult)
        (out : List Cache × List CacheResult),
      rs.length = cs.length →
      walkLevels address cs rs = some out →
      ∃ k, k ≤ cs.length ∧
        (∀ j, j < k →
          (cs.getD j defaultCache).read_and_update_line address =
            some (false, out.1.getD j defaultCache) ∧
          (out.2.getD j emptyResult).misses = (rs.getD j emptyResult).misses + 1 ∧
          (out.2.getD j emptyResult).hits = (rs.getD j emptyResult).hits ∧
          (out.2.getD j emptyResult).name = (rs.getD j emptyResult).name) ∧
        (k < cs.length →
          (cs.getD k defaultCache).read_and_update_line address =
            some (true, out.1.getD k defaultCache) ∧
          (out.2.getD k emptyResult).hits = (rs.getD k emptyResult).hits + 1 ∧
          (out.2.getD k emptyResult).misses = (rs.getD k emptyResult).misses ∧
          (out.2.getD k emptyResult).name = (rs.getD k emptyResult).name) ∧
        (∀ j, k < j →
          out.1.getD j defaultCache = cs.getD j defaultCache ∧
          out.2.getD j emptyResult = rs.getD j emptyResult)) ∧
    (∀ (config : LayeredCacheConfig) (bytes : List Nat) (sim2 : Simulator),
      (Simulator.new config).simulate bytes = some sim2 →
      ∀ i, cacheTotal (sim2.result.caches.getD (i + 1) emptyResult) ≤
        cacheTotal (sim2.result.caches.getD i emptyResult)) := by
  constructor
  · exact fun address cs rs out hlen h => walkLevels_char address cs rs out hlen h
  · intro config bytes sim2 h
    rw [Simulator.simulate] at h
    split at h
    · split at h
      · exact absurd h (by simp)
      · rename_i sim3 hsl
        split at h
        · exact absurd h (by simp)
        · rename_i last hlast
          simp only [Option.some_inj] at h
          subst h
          have hmono0 : monoTotals (Simulator.new config).result.caches := by
            intro i
            rw [new_totals_zero, new_totals_zero]
          exact simLoop_mono bytes bytes.length 0 _ sim3 hsl hmono0
    · exact absurd h (by simp)

/-- C4: the record loop never touches `main_memory_accesses`; when `simulate`
returns successfully on a buffer whose length is a multiple of 40, the
returned result's `main_memory_accesses` equals the miss counter of the last
configured level, assigned once after the whole buffer is consumed. -/
theorem c4_main_memory_accesses_final :
    (∀ (bytes : List Nat) (fuel i : Nat) (sim sim2 : Simulator),
      simLoop bytes fuel i sim = some sim2 →
      sim2.result.main_memory_accesses = sim.result.main_memory_accesses) ∧
    (∀ (sim : Simulator) (bytes : List Nat) (sim2 : Simulator),
      bytes.length % 40 = 0 → sim.simulate bytes = some sim2 →
      ∃ last, sim2.result.caches.getLast? = some last ∧
        sim2.result.main_memory_accesses = last.misses) := by
  constructor
  · exact fun bytes fuel i sim sim2 h => simLoop_mma bytes fuel i sim sim2 h
  · intro sim bytes sim2 hlen h
    rw [Simulator.simulate, if_pos hlen] at h
    split at h
    · exact absurd h (by simp)
    · rename_i sim3 hsl
      split at h
      · exact absurd h (by simp)
      · rename_i last hlast
        simp only [Option.some_inj] at h
        subst h
        exact ⟨last, hlast, rfl⟩

/-- A two-level configuration: a one-line L1 in front of a 2-way LRU L2. -/
def exConfigTwoLevel : LayeredCacheConfig :=
  ⟨[{ name := "l1", size := 8, line_size := 8, kind := .direct,
      replacement_policy := .roundRobin },
    { name := "l2", size := 32, line_size := 8, kind := .twoWay,
      replacement_policy := .leastRecentlyUsed }]⟩

/-- One well-formed trace record: a 1-byte read at address 0x40. -/
def exTrace : List Nat :=
  [48, 48, 48, 48, 48, 48, 48, 48, 48, 48, 48, 48, 48, 48, 48, 48, 32,
   48, 48, 48, 48, 48, 48, 48, 48, 48, 48, 48, 48, 48, 48, 52, 48, 32,
   82, 32, 48, 48, 49, 10]

/-- The simulator state after simulating `exTrace` on `exConfigTwoLevel`. -/
def exSimResult : Simulator :=
  ((Simulator.new exConfigTwoLevel).simulate exTrace).getD defaultSimulator

/-- Witness for C3: the two-level example run, compared at levels 0 and 1. -/
theorem c3_hit_propagation_witness :
    (Simulator.new exConfigTwoLevel).simulate exTrace = some exSimResult ∧
    cacheTotal (exSimResult.result.caches.getD (0 + 1) emptyResult) ≤
      cacheTotal (exSimResult.result.caches.getD 0 emptyResult) :=
  ⟨by decide, (c3_hit_propagation.2 exConfigTwoLevel exTrace exSimResult (by decide)) 0⟩

/-- Witness for C4: the same run; the final `main_memory_accesses` equals the
last level's misses. -/
theorem c4_main_memory_accesses_final_witness :
    (exTrace.length % 40 = 0 ∧
      (Simulator.new exConfigTwoLevel).simulate exTrace = some exSimResult) ∧
    (∃ last, exSimResult.result.caches.getLast? = some last ∧
      exSimResult.result.main_memory_accesses = last.misses) :=
  ⟨⟨by decide, by decide⟩,
    c4_main_memory_accesses_final.2 (Simulator.new exConfigTwoLevel) exTrace exSimResult
      (by decide) (by decide)⟩

/-! ## Claim C2 (sub-access splitting) -/

theorem subLoop_one_iter (stride upper a0 fuel : Nat) (h1 : a0 < upper)
    (h2 : upper ≤ a0 + stride) (h3 : a0 + stride < 2 ^ 64) (hf : 2 ≤ fuel) :
    subLoop stride upper fuel a0 = some [a0] := by
  obtain ⟨f, rfl⟩ : ∃ f, fuel = f + 2 := ⟨fuel - 2, by omega⟩
  simp only [subLoop, if_pos h1]
  rw [Nat.mod_eq_of_lt h3, if_neg (show ¬(a0 + stride < upper) by omega)]

theorem subLoop_two_iter (stride upper a0 fuel : Nat) (h1 : a0 < upper)
    (h2 : a0 + stride < upper) (h3 : upper ≤ a0 + 2 * stride)
    (h4 : a0 + 2 * stride < 2 ^ 64) (hf : 3 ≤ fuel) :
    subLoop stride upper fuel a0 = some [a0, a0 + stride] := by
  obtain ⟨f, rfl⟩ : ∃ f, fuel = f + 3 := ⟨fuel - 3, by omega⟩
  simp only [subLoop, if_pos h1]
  rw [Nat.mod_eq_of_lt (show a0 + stride < 2 ^ 64 by omega), if_pos h2,
    Nat.mod_eq_of_lt (show a0 + stride + stride < 2 ^ 64 by omega),
    if_neg (show ¬(a0 + stride + stride < upper) by omega)]

/-- C2 counterexample: the claim as stated fails at address `2^64 - 1` with
size 1: the u64 computation `address + size` wraps to 0, the loop bound is 0,
and zero sub-accesses are dispatched (the simulator state is unchanged),
not exactly one. -/
theorem c2_sub_access_split_counterexample :
    subAccessList (2 ^ 64 - 2 ^ 3) (2 ^ 3) (2 ^ 64 - 1) 1 = some [] ∧
    (Simulator.new exConfigTwoLevel).read (2 ^ 64 - 1) 1 =
      some (Simulator.new exConfigTwoLevel) := by
  constructor
  · decide
  · decide

/-- C2 (amended): every record is split into sub-accesses at the stride of
the outermost line size, starting at `address & M` and continuing while the
current address is below `address + size` (with u64 wrap-around); provided
the access ends at least one outermost line below the top of the 64-bit
address space (`address + size ≤ 2^64 - S`), an access of size 1 dispatches
exactly one sub-access and an access spanning exactly two outermost lines
dispatches exactly two. -/
theorem c2_sub_access_split_amended (sim : Simulator) (first_cache : Cache)
    (rest : List Cache) (address size a : Nat)
    (hc : sim.caches = first_cache :: rest)
    (hm : first_cache.cache_alignment_bit_mask = 2 ^ 64 - 2 ^ a)
    (hl : first_cache.line_size = 2 ^ a)
    (ha : a < 64)
    (htop : address + size ≤ 2 ^ 64 - 2 ^ a) :
    (sim.read address size =
      (subAccessList first_cache.cache_alignment_bit_mask first_cache.line_size
        address size).bind (fun l => foldWalk l sim)) ∧
    (size = 1 →
      subAccessList first_cache.cache_alignment_bit_mask first_cache.line_size address size =
        some [address - address % 2 ^ a]) ∧
    (address - address % 2 ^ a + 2 ^ a < address + size →
      address + size ≤ address - address % 2 ^ a + 2 * 2 ^ a →
      subAccessList first_cache.cache_alignment_bit_mask first_cache.line_size address size =
        some [address - address % 2 ^ a, address - address % 2 ^ a + 2 ^ a]) := by
  have h2a1 : (1 : Nat) ≤ 2 ^ a := Nat.one_le_two_pow
  have h2a64 : (2 : Nat) ^ a < 2 ^ 64 := two_pow_lt_two_pow_64 ha
  have h64 : (1 : Nat) ≤ 2 ^ 64 := Nat.one_le_two_pow
  have hrle : address % 2 ^ a ≤ address := Nat.mod_le _ _
  have hrlt : address % 2 ^ a < 2 ^ a := Nat.mod_lt _ (by omega)
  have hstart : address - (address &&& u64not first_cache.cache_alignment_bit_mask) =
      address - address % 2 ^ a := by
    rw [hm, u64not_eq _ (by omega)]
    have he : 2 ^ 64 - 1 - (2 ^ 64 - 2 ^ a) = 2 ^ a - 1 := by omega
    rw [he, Nat.and_pow_two_sub_one_eq_mod]
  refine ⟨read_eq_foldWalk sim first_cache rest address size hc, ?_, ?_⟩
  · intro hsz
    subst hsz
    simp only [subAccessList, hl, hstart]
    rw [Nat.mod_eq_of_lt (show address + 1 < 2 ^ 64 by omega)]
    exact subLoop_one_iter _ _ _ _ (by omega) (by omega) (by omega) (by omega)
  · intro hs1 hs2
    simp only [subAccessList, hl, hstart]
    rw [Nat.mod_eq_of_lt (show address + size < 2 ^ 64 by omega)]
    exact subLoop_two_iter _ _ _ _ (by omega) (by omega) (by omega) (by omega) (by omega)

/-- The first level of `exConfigTwoLevel`. -/
def exL1Config : CacheConfig :=
  { name := "l1", size := 8, line_size := 8, kind := .direct,
    replacement_policy := .roundRobin }

/-- The second level of `exConfigTwoLevel`. -/
def exL2Config : CacheConfig :=
  { name := "l2", size := 32, line_size := 8, kind := .twoWay,
    replacement_policy := .leastRecentlyUsed }

/-- Witness for the amended C2: a 1-byte access at 0x43 with 8-byte
outermost lines dispatches exactly one sub-access. -/
theorem c2_sub_access_split_amended_witness :
    ((Simulator.new exConfigTwoLevel).caches =
      Simulator.config_to_cache exL1Config :: [Simulator.config_to_cache exL2Config] ∧
      (Simulator.config_to_cache exL1Config).cache_alignment_bit_mask = 2 ^ 64 - 2 ^ 3 ∧
      (Simulator.config_to_cache exL1Config).line_size = 2 ^ 3 ∧
      (67 : Nat) + 1 ≤ 2 ^ 64 - 2 ^ 3) ∧
    subAccessList (Simulator.config_to_cache exL1Config).cache_alignment_bit_mask
      (Simulator.config_to_cache exL1Config).line_size 67 1 =
      some [67 - 67 % 2 ^ 3] :=
  ⟨⟨rfl, by decide, by decide, by decide⟩,
    (c2_sub_access_split_amended (Simulator.new exConfigTwoLevel)
      (Simulator.config_to_cache exL1Config) [Simulator.config_to_cache exL2Config]
      67 1 3 rfl (by decide) (by decide) (by decide) (by decide)).2.1 rfl⟩
